import Mathlib

/-!
Verification of the memcached loader (`main.go`): shallow embedding of the
record parser, shard routing, the per-file scan loop, the error-rate
evaluator / completion marking, the admission semaphore, the result
aggregation, and the chronological file sort, together with theorems about
them.  Go strings are modelled as `List Char`; `float64` values are modelled
as exact rationals (the inputs exercised here are small decimal literals);
machine integers are modelled as `Nat` with explicit range checks.
-/

namespace MemcLoad

/-- Go strings, modelled as lists of characters (the input files are ASCII). -/
abbrev GoStr := List Char

/-- Convenience conversion from a Lean string literal. -/
def gs (s : String) : GoStr := s.toList

/-- Whitespace recognised by Go's `strings.TrimSpace` (`unicode.IsSpace`),
restricted to the ASCII range relevant to the input format. -/
def isGoSpace (c : Char) : Bool :=
  c = ' ' || c = '\t' || c = '\n' || c = '\r' || c = Char.ofNat 11 || c = Char.ofNat 12

/-- Drop leading Go whitespace. -/
def trimLeft (s : GoStr) : GoStr := s.dropWhile isGoSpace

/-- Drop trailing Go whitespace. -/
def trimRight (s : GoStr) : GoStr := (s.reverse.dropWhile isGoSpace).reverse

/-- Model of `strings.TrimSpace` from `main.go` lines 61 and 179. -/
def trimSpace (s : GoStr) : GoStr := trimRight (trimLeft s)

/-- Model of Go `strings.Split` with a one-character separator: splitting the
empty string yields `[""]`, and `k` separators yield `k+1` fields. -/
def splitChar (sep : Char) : GoStr → List GoStr
  | [] => [[]]
  | c :: cs =>
    if c = sep then [] :: splitChar sep cs
    else
      match splitChar sep cs with
      | [] => [[c]]
      | g :: gsl => (c :: g) :: gsl

/-- Numeric value of a decimal digit character, `none` for non-digits. -/
def digitVal (c : Char) : Option Nat :=
  if '0' ≤ c ∧ c ≤ '9' then some (c.toNat - 48) else none

/-- Split a string into its maximal leading run of decimal digits (as digit
values) and the remainder. -/
def takeDigits : GoStr → List Nat × GoStr
  | [] => ([], [])
  | c :: cs =>
    match digitVal c with
    | some d =>
      let p := takeDigits cs
      (d :: p.1, p.2)
    | none => ([], c :: cs)

/-- Value of a list of decimal digit values, most significant first. -/
def digitsVal (ds : List Nat) : Nat := ds.foldl (fun a d => 10 * a + d) 0

/-- Model of `strconv.ParseUint(s, 10, 32)` (`main.go` line 94): a non-empty
all-digit string whose value fits in 32 bits, with no sign and no other
characters; anything else is an error (`none`). -/
def goParseUint32 (s : GoStr) : Option Nat :=
  match takeDigits s with
  | (ds, []) =>
    if ds.isEmpty then none
    else if digitsVal ds < 2 ^ 32 then some (digitsVal ds) else none
  | _ => none

/-- Strip an optional leading sign; returns (isNegative, rest). -/
def splitSign : GoStr → Bool × GoStr
  | '+' :: r => (false, r)
  | '-' :: r => (true, r)
  | s => (false, s)

/-- Mantissa value from integer-part digits and fraction digits. -/
def mantVal (neg : Bool) (ids fds : List Nat) : ℚ :=
  let m : ℚ := (digitsVal ids : ℚ) + (digitsVal fds : ℚ) / ((10 : ℚ) ^ fds.length)
  if neg then -m else m

/-- Apply a decimal exponent to a mantissa. -/
def applyExp (m : ℚ) (eneg : Bool) (e : Nat) : ℚ :=
  if eneg then m / (10 : ℚ) ^ e else m * (10 : ℚ) ^ e

/-- Parse the exponent part following `e`/`E` in a float literal. -/
def parseExpPart (m : ℚ) (s : GoStr) : Option ℚ :=
  let p := splitSign s
  match takeDigits p.2 with
  | ([], _) => none
  | (eds, []) => some (applyExp m p.1 (digitsVal eds))
  | _ => none

/-- Finish parsing a float once the mantissa digits have been read: require at
least one mantissa digit and either end of input or an exponent part. -/
def afterMant (neg : Bool) (ids fds : List Nat) (rest : GoStr) : Option ℚ :=
  if ids.isEmpty ∧ fds.isEmpty then none
  else
    match rest with
    | [] => some (mantVal neg ids fds)
    | 'e' :: r => parseExpPart (mantVal neg ids fds) r
    | 'E' :: r => parseExpPart (mantVal neg ids fds) r
    | _ => none

/-- Model of `strconv.ParseFloat(s, 64)` (`main.go` lines 76 and 81) on the
decimal literal forms `[+-]digits[.digits][(e|E)[+-]digits]`; the value is
represented exactly as a rational.  The whole string must be consumed;
the empty string and non-numeric strings are errors (`none`). -/
def goParseFloat (s : GoStr) : Option ℚ :=
  let p := splitSign s
  let ip := takeDigits p.2
  match ip.2 with
  | '.' :: r =>
    let fp := takeDigits r
    afterMant p.1 ip.1 fp.1 fp.2
  | _ => afterMant p.1 ip.1 [] ip.2

/-- Error taxonomy of `parseAppsInstalled` (the spec's RecordParser):
`malformedLine` is the "not enough fields" error, `missingIdentity` the
"empty dev_type or dev_id" error, `invalidCoordinate` the lat/lon parse
errors (`main.go` lines 62-84). -/
inductive ParseErr where
  | malformedLine
  | missingIdentity
  | invalidCoordinate
deriving DecidableEq

/-- The `AppsInstalled` record of `main.go` lines 25-31. -/
structure AppsInstalled where
  devType : GoStr
  devID : GoStr
  lat : ℚ
  lon : ℚ
  apps : List Nat
deriving DecidableEq

/-- The app-list loop of `parseAppsInstalled` (`main.go` lines 87-100): each
comma-separated token is trimmed; empty tokens are skipped; tokens that fail
`strconv.ParseUint(_, 10, 32)` are skipped with a diagnostic; parsed values
are appended in order. -/
def parseAppsTokens : List GoStr → List Nat
  | [] => []
  | t :: rest =>
    let tt := trimSpace t
    if tt.isEmpty then parseAppsTokens rest
    else
      match goParseUint32 tt with
      | none => parseAppsTokens rest
      | some a => a :: parseAppsTokens rest

/-- The apps field parse: split field 5 on `,` and run the token loop. -/
def parseApps (raw : GoStr) : List Nat := parseAppsTokens (splitChar ',' raw)

/-- Model of `parseAppsInstalled` (`main.go` lines 60-109): trim the line,
split on tabs, require at least 5 fields, require non-empty dev_type and
dev_id, parse lat and lon as floats, and parse the apps list leniently. -/
def parseAppsInstalled (line : GoStr) : Except ParseErr AppsInstalled :=
  let parts := splitChar '\t' (trimSpace line)
  if parts.length < 5 then .error .malformedLine
  else
    let devType := parts.getD 0 []
    let devID := parts.getD 1 []
    if devType.isEmpty ∨ devID.isEmpty then .error .missingIdentity
    else
      match goParseFloat (parts.getD 2 []) with
      | none => .error .invalidCoordinate
      | some lat =>
        match goParseFloat (parts.getD 3 []) with
        | none => .error .invalidCoordinate
        | some lon =>
          .ok { devType := devType, devID := devID, lat := lat, lon := lon,
                apps := parseApps (parts.getD 4 []) }

/-- The four recognised device types, the keys of the `deviceMemc` map built
in `main` (`main.go` lines 316-321). -/
inductive DevKind where
  | idfa
  | gaid
  | adid
  | dvid
deriving DecidableEq

/-- Model of the `deviceMemc[appsInstalled.DevType]` lookup (`main.go` line
190): the spec's ShardRouter.  Unknown device types yield `none`. -/
def routeDevice (t : GoStr) : Option DevKind :=
  if t = gs "idfa" then some .idfa
  else if t = gs "gaid" then some .gaid
  else if t = gs "adid" then some .adid
  else if t = gs "dvid" then some .dvid
  else none

/-- What the scan loop of `processFile` does with one raw line
(`main.go` lines 178-210): skip it, count a parse error, count a routing
error, or dispatch a `WriteTask` for the parsed record. -/
inductive LineAction where
  | skip
  | parseError
  | routeError
  | dispatch (r : AppsInstalled)

/-- Whether a line action dispatches a `WriteTask`. -/
def LineAction.isDispatch : LineAction → Bool
  | .dispatch _ => true
  | _ => false

/-- One iteration of the scan loop of `processFile` (`main.go` lines
178-210): trim the line; skip it if empty; otherwise parse it (a parse
failure increments `errors` directly, line 186); otherwise route it (an
unknown device type increments `errors` directly, line 192); otherwise
dispatch a `WriteTask` under the semaphore. -/
def lineStep (raw : GoStr) : LineAction :=
  let line := trimSpace raw
  if line.isEmpty then .skip
  else
    match parseAppsInstalled line with
    | .error _ => .parseError
    | .ok r =>
      match routeDevice r.devType with
      | none => .routeError
      | some _ => .dispatch r

/-- The sequential effect of the scan loop over a whole file: how many times
`errors` is incremented directly by the scanner (parse and routing failures)
and which records are dispatched as `WriteTask`s, in scan order. -/
structure ScanResult where
  scanErrors : Nat
  dispatched : List AppsInstalled
deriving DecidableEq

/-- Run the scan loop of `processFile` over a list of raw lines. -/
def scanLines : List GoStr → ScanResult
  | [] => ⟨0, []⟩
  | l :: rest =>
    let r := scanLines rest
    match lineStep l with
    | .skip => r
    | .parseError => ⟨r.scanErrors + 1, r.dispatched⟩
    | .routeError => ⟨r.scanErrors + 1, r.dispatched⟩
    | .dispatch a => ⟨r.scanErrors, a :: r.dispatched⟩

/-- The success/failure evaluation log line emitted by `processFile`
(`main.go` lines 229-233), carrying the computed error rate. -/
inductive EvalLog where
  | successfulLoad (rate : ℚ)
  | failedLoad (rate : ℚ)

/-- Observable outcome of the finalize stage of `processFile` (`main.go`
lines 223-235): the evaluation log line, if any, and whether `dotRename` was
invoked.  The result of `dotRename` is discarded by `processFile`, so it can
appear nowhere in this structure. -/
structure FinalResult where
  evalLog : Option EvalLog
  renameInvoked : Bool

set_option linter.unusedVariables false in
/-- Model of the finalize stage of `processFile` (`main.go` lines 223-235):
with `processed == 0` the file is renamed and the function returns without
computing a rate; otherwise `errRate = errors / processed` is compared
strictly against `normalErrRate = 0.01` and the corresponding log line is
emitted, then the file is renamed.  `renameRes` is the result `os.Rename`
would return; `processFile` calls `dotRename` without inspecting it. -/
def finalizePhase (processed errors : Nat) (renameRes : Except Unit Unit) : FinalResult :=
  if processed = 0 then { evalLog := none, renameInvoked := true }
  else
    let errRate : ℚ := (errors : ℚ) / (processed : ℚ)
    if errRate < 1 / 100 then
      { evalLog := some (.successfulLoad errRate), renameInvoked := true }
    else
      { evalLog := some (.failedLoad errRate), renameInvoked := true }

/-- Model of the sequential file loop of `main` (`main.go` lines 365-367)
restricted to the finalize stage: each file is summarised by its final
counters and the result its completion rename would have; files are handled
strictly one after another and nothing aborts the loop. -/
def runPipeline (files : List (Nat × Nat × Except Unit Unit)) : List FinalResult :=
  files.map fun f => finalizePhase f.1 f.2.1 f.2.2

/-- State of the result aggregation of `processFile` for a file that
dispatches `n` `WriteTask`s (`main.go` lines 164-217): `sent` outcomes have
been sent on `resultChan` (each task sends exactly one, line 205); `applied`
of them have been consumed by the counting goroutine (lines 168-176);
`closed` records that `wg.Wait()` returned and `resultChan` was closed
(lines 213-214); `finalized` records that the main goroutine went on to read
`processed`/`errors` after `time.Sleep(100ms)` (lines 217-235). -/
structure AggState where
  sent : Nat
  applied : Nat
  closed : Bool
  finalized : Bool

/-- Interleaving semantics of the aggregation (`main.go` lines 164-235).
`send` is a task's `resultChan <- ...`; it precedes that task's `wg.Done()`,
so all sends precede `close` — hence `send` requires `closed = false` and
`close` requires `sent = n`.  `recvApply` is one iteration of the counting
goroutine.  `finalize` is the main goroutine reading the counters after
`time.Sleep(100 * time.Millisecond)`: sleeping is not synchronization, so
the only enabling condition the code provides is `closed = true` — nothing
relates it to `applied`. -/
inductive AggStep (n : Nat) : AggState → AggState → Prop
  | send (s : AggState) (h : s.sent < n) (hc : s.closed = false) :
      AggStep n s { s with sent := s.sent + 1 }
  | recvApply (s : AggState) (h : s.applied < s.sent) :
      AggStep n s { s with applied := s.applied + 1 }
  | close (s : AggState) (h : s.sent = n) :
      AggStep n s { s with closed := true }
  | finalize (s : AggState) (h : s.closed = true) :
      AggStep n s { s with finalized := true }

/-- Initial aggregation state. -/
def AggInit : AggState := { sent := 0, applied := 0, closed := false, finalized := false }

/-- Reachable aggregation states of a file dispatching `n` tasks. -/
def AggReach (n : Nat) (s : AggState) : Prop :=
  Relation.ReflTransGen (AggStep n) AggInit s

/-- Program counter of one non-atomic `errors++` (a read of `errors`
followed by a write of the read value plus one). -/
inductive IncPC where
  | idle
  | loaded (v : Nat)
  | done
deriving DecidableEq

/-- Shared state for the two unsynchronized incrementers of the `errors`
counter of `processFile`: the scan loop (`errors++` at `main.go` lines 186
and 192, executed by the main goroutine while tasks are in flight) and the
counting goroutine (`errors++` at line 173).  Go gives `errors++` no
atomicity, so each increment is a read step followed by a write step. -/
structure RaceState where
  errors : Nat
  scanPC : IncPC
  aggPC : IncPC

/-- Interleaving semantics of two concurrent non-atomic `errors++`
executions, one by the scanner (`main.go` line 186 or 192) and one by the
counting goroutine (line 173); no lock or channel orders them. -/
inductive RaceStep : RaceState → RaceState → Prop
  | scanLoad (s : RaceState) (h : s.scanPC = .idle) :
      RaceStep s { s with scanPC := .loaded s.errors }
  | scanStore (s : RaceState) (v : Nat) (h : s.scanPC = .loaded v) :
      RaceStep s { s with errors := v + 1, scanPC := .done }
  | aggLoad (s : RaceState) (h : s.aggPC = .idle) :
      RaceStep s { s with aggPC := .loaded s.errors }
  | aggStore (s : RaceState) (v : Nat) (h : s.aggPC = .loaded v) :
      RaceStep s { s with errors := v + 1, aggPC := .done }

/-- Initial race state: `errors = 0`, both increments pending. -/
def RaceInit : RaceState := { errors := 0, scanPC := .idle, aggPC := .idle }

/-- Reachable states of the two racing increments. -/
def RaceReach (s : RaceState) : Prop := Relation.ReflTransGen RaceStep RaceInit s

/-- Outcome of one `WriteTask` goroutine (`main.go` lines 200-209 and
`insertAppsInstalled`): success (including dry-run), a protobuf
serialization failure, or a memcache write failure. -/
inductive TaskOutcome where
  | success
  | serializationError
  | backendWriteError
deriving DecidableEq

/-- Semaphore-visible state of `processFile` for a file with `n` lines to
dispatch: `pending` dispatches not yet started, `inFlight` tasks holding a
semaphore slot, `finished` tasks that have released their slot. -/
structure SemState where
  pending : Nat
  inFlight : Nat
  finished : Nat
deriving DecidableEq

/-- Semantics of the admission gate (`main.go` lines 197-209, capacity from
line 362): `dispatch` is `semaphore <- struct{}{}` followed by starting the
task goroutine — it blocks while the buffered channel holds `cap` items, so
it is enabled only when `inFlight < cap`; `taskExit` is a task finishing
with any outcome — the deferred `<-semaphore` (line 202) runs on every exit
path and releases exactly one slot. -/
inductive SemStep (cap : Nat) : SemState → SemState → Prop
  | dispatch (s : SemState) (hp : 0 < s.pending) (hc : s.inFlight < cap) :
      SemStep cap s { pending := s.pending - 1, inFlight := s.inFlight + 1,
                      finished := s.finished }
  | taskExit (s : SemState) (o : TaskOutcome) (h : 0 < s.inFlight) :
      SemStep cap s { pending := s.pending, inFlight := s.inFlight - 1,
                      finished := s.finished + 1 }

/-- Initial semaphore state for a file with `n` dispatchable lines. -/
def SemInit (n : Nat) : SemState := { pending := n, inFlight := 0, finished := 0 }

/-- Reachable semaphore states. -/
def SemReach (cap n : Nat) (s : SemState) : Prop :=
  Relation.ReflTransGen (SemStep cap) (SemInit n) s

/-- A discovered input file together with its modification time, as collected
by `main` (`main.go` lines 338-350); `time.Time` is modelled as a `Nat`. -/
structure FileInfo where
  path : GoStr
  modTime : Nat
deriving DecidableEq

/-- Model of `fileInfos[i].modTime.After(fileInfos[j].modTime)` (`main.go`
line 355): `time.Time.After` is strict. -/
def modAfter (a b : FileInfo) : Bool := decide (b.modTime < a.modTime)

/-- One pass of the inner loop of the sort in `main` (`main.go` lines
354-358) with `cur` the current value of `fileInfos[i]`: walk the elements
after position `i` in order, swapping whenever `cur` is strictly later;
returns the final value at position `i` and the updated tail. -/
def selInner (cur : FileInfo) : List FileInfo → FileInfo × List FileInfo
  | [] => (cur, [])
  | x :: xs =>
    if modAfter cur x then
      let p := selInner x xs
      (p.1, cur :: p.2)
    else
      let p := selInner cur xs
      (p.1, x :: p.2)

/-- The outer loop of the sort in `main` (`main.go` lines 353-359); the
fuel counts the remaining outer iterations, which is exactly the length of
the remaining list. -/
def sortAux : Nat → List FileInfo → List FileInfo
  | 0, l => l
  | _ + 1, [] => []
  | fuel + 1, x :: xs =>
    let p := selInner x xs
    p.1 :: sortAux fuel p.2

/-- The exchange sort by modification time performed by `main` (`main.go`
lines 352-359). -/
def sortByModTime (l : List FileInfo) : List FileInfo := sortAux l.length l

/-- The order in which `main` processes the discovered files (`main.go`
lines 365-367): sequentially, in sorted order. -/
def processOrder (l : List FileInfo) : List GoStr := (sortByModTime l).map (·.path)

/-- The inner sort pass keeps the length of the tail. -/
theorem selInner_snd_length (cur : FileInfo) (xs : List FileInfo) :
    ((selInner cur xs).2).length = xs.length := by
  induction xs generalizing cur with
  | nil => rfl
  | cons x xs ih =>
    simp only [selInner]
    split
    · simp [ih x]
    · simp [ih cur]

/-- The inner sort pass permutes the current element and the tail. -/
theorem selInner_perm (cur : FileInfo) (xs : List FileInfo) :
    List.Perm ((selInner cur xs).1 :: (selInner cur xs).2) (cur :: xs) := by
  induction xs generalizing cur with
  | nil => exact List.Perm.refl _
  | cons x xs ih =>
    simp only [selInner]
    split
    · exact (List.Perm.swap cur (selInner x xs).1 (selInner x xs).2).trans
        ((ih x).cons cur)
    · exact (List.Perm.swap x (selInner cur xs).1 (selInner cur xs).2).trans
        (((ih cur).cons x).trans (List.Perm.swap cur x xs))

/-- The element selected by the inner pass is no later than the element it
started from. -/
theorem selInner_fst_le (cur : FileInfo) (xs : List FileInfo) :
    (selInner cur xs).1.modTime ≤ cur.modTime := by
  induction xs generalizing cur with
  | nil => exact Nat.le_refl _
  | cons x xs ih =>
    simp only [selInner]
    split
    · next hc =>
      have hx : x.modTime < cur.modTime := by
        simpa [modAfter] using hc
      exact le_trans (ih x) (le_of_lt hx)
    · exact ih cur

/-- The element selected by the inner pass is no later than anything left in
the tail. -/
theorem selInner_fst_min (cur : FileInfo) (xs : List FileInfo) :
    ∀ y ∈ (selInner cur xs).2, (selInner cur xs).1.modTime ≤ y.modTime := by
  induction xs generalizing cur with
  | nil => intro y hy; cases hy
  | cons x xs ih =>
    simp only [selInner]
    split
    · next hc =>
      have hx : x.modTime < cur.modTime := by
        simpa [modAfter] using hc
      intro y hy
      rcases List.mem_cons.mp hy with h | h
      · subst h; exact le_trans (selInner_fst_le x xs) (le_of_lt hx)
      · exact ih x y h
    · next hc =>
      have hx : cur.modTime ≤ x.modTime := by
        simpa [modAfter] using hc
      intro y hy
      rcases List.mem_cons.mp hy with h | h
      · subst h; exact le_trans (selInner_fst_le cur xs) hx
      · exact ih cur y h

/-- With enough fuel the outer sort loop permutes its input. -/
theorem sortAux_perm : ∀ (fuel : Nat) (l : List FileInfo), l.length ≤ fuel →
    List.Perm (sortAux fuel l) l := by
  intro fuel
  induction fuel with
  | zero =>
    intro l hl
    exact List.Perm.refl _
  | succ fuel ih =>
    intro l hl
    cases l with
    | nil => exact List.Perm.refl _
    | cons x xs =>
      simp only [sortAux]
      have hlen : ((selInner x xs).2).length ≤ fuel := by
        rw [selInner_snd_length]
        simp only [List.length_cons] at hl
        omega
      exact ((ih _ hlen).cons _).trans (selInner_perm x xs)

/-- With enough fuel the outer sort loop produces a list that is ascending
in modification time. -/
theorem sortAux_sorted : ∀ (fuel : Nat) (l : List FileInfo), l.length ≤ fuel →
    (sortAux fuel l).Pairwise (fun u v => u.modTime ≤ v.modTime) := by
  intro fuel
  induction fuel with
  | zero =>
    intro l hl
    have : l = [] := List.length_eq_zero.mp (Nat.le_zero.mp hl)
    simp [this, sortAux]
  | succ fuel ih =>
    intro l hl
    cases l with
    | nil => simp [sortAux]
    | cons x xs =>
      simp only [sortAux]
      have hlen : ((selInner x xs).2).length ≤ fuel := by
        rw [selInner_snd_length]
        simp only [List.length_cons] at hl
        omega
      refine List.Pairwise.cons ?_ (ih _ hlen)
      intro y hy
      exact selInner_fst_min x xs y ((sortAux_perm fuel _ hlen).mem_iff.mp hy)

/-- The exchange sort of `main` permutes the discovered files. -/
theorem sortByModTime_perm (l : List FileInfo) : List.Perm (sortByModTime l) l :=
  sortAux_perm l.length l (Nat.le_refl _)

/-- The exchange sort of `main` orders the files ascending by modification
time. -/
theorem sortByModTime_sorted (l : List FileInfo) :
    (sortByModTime l).Pairwise (fun u v => u.modTime ≤ v.modTime) :=
  sortAux_sorted l.length l (Nat.le_refl _)

/-- A line whose action is `skip` contributes nothing to the scan. -/
theorem scanLines_skip_middle (pre post : List GoStr) (raw : GoStr)
    (h : lineStep raw = .skip) :
    scanLines (pre ++ raw :: post) = scanLines (pre ++ post) := by
  induction pre with
  | nil => simp [scanLines, h]
  | cons l ls ih => simp [scanLines, ih]

/-- One semaphore step preserves the gate bound and the slot accounting. -/
theorem semStep_inv (cap n : Nat) (a b : SemState) (hstep : SemStep cap a b)
    (h1 : a.inFlight ≤ cap) (h2 : a.pending + a.inFlight + a.finished = n) :
    b.inFlight ≤ cap ∧ b.pending + b.inFlight + b.finished = n := by
  cases hstep with
  | dispatch hp hc => refine ⟨?_, ?_⟩ <;> dsimp only <;> omega
  | taskExit o hin => refine ⟨?_, ?_⟩ <;> dsimp only <;> omega

/-- The strict rate comparison of `processFile` in integer terms. -/
theorem rate_lt_iff (p e : Nat) (hp : 0 < p) :
    ((e : ℚ) / (p : ℚ) < 1 / 100) ↔ 100 * e < p := by
  rw [div_lt_div_iff₀ (by exact_mod_cast hp) (by norm_num : (0 : ℚ) < 100), one_mul]
  constructor
  · intro h
    have he : e * 100 < p := by exact_mod_cast h
    omega
  · intro h
    have he : e * 100 < p := by omega
    exact_mod_cast he

/-- C1: the claim says the aggregation does not finalize the file's
processed/error counts until every outcome of every dispatched task has been
observed — a join barrier, not a fixed wall-clock delay.  The code
(`main.go` lines 212-217) joins only the *senders* (`wg.Wait`), closes
`resultChan`, and then merely sleeps 100 ms before reading the counters:
nothing synchronizes with the counting goroutine, so a state is reachable
in which the counts are finalized while a sent outcome is still unobserved
(`applied < sent`).  This proves the interleaving semantics of the code
violates the claimed join-barrier property for a file with one dispatched
task. -/
theorem c1_agg_finalize_race :
    ∃ s : AggState, AggReach 1 s ∧ s.finalized = true ∧ s.applied < s.sent := by
  refine ⟨{ sent := 1, applied := 0, closed := true, finalized := true }, ?_, rfl, by decide⟩
  exact Relation.ReflTransGen.head (AggStep.send AggInit (by decide) rfl)
    (Relation.ReflTransGen.head (AggStep.close _ rfl)
      (Relation.ReflTransGen.single (AggStep.finalize _ rfl)))

/-- C2: the claim says the per-file counters are updated only through a
synchronized aggregation path, never through unsynchronized concurrent
increments.  In the code the scan loop increments `errors` directly
(`main.go` lines 186 and 192) while the counting goroutine started at line
168 concurrently increments the same variable (line 173); no lock orders
them.  The first two conjuncts show both increment sites are live on a
concrete two-line file (a dispatched task whose failed outcome drives the
goroutine's `errors++`, and a malformed line driving the scanner's
`errors++`); the third shows the interleaving semantics of two such
non-atomic increments reaches a lost update: both complete yet
`errors = 1`. -/
theorem c2_unsync_increment_race :
    (lineStep (gs "idfa\tID1\t55.55\t42.42\t1")).isDispatch = true ∧
    lineStep (gs "bogus") = .parseError ∧
    ∃ s : RaceState, RaceReach s ∧ s.scanPC = .done ∧ s.aggPC = .done ∧ s.errors = 1 := by
  refine ⟨rfl, rfl, ⟨1, .done, .done⟩, ?_, rfl, rfl, rfl⟩
  exact Relation.ReflTransGen.head (RaceStep.scanLoad RaceInit rfl)
    (Relation.ReflTransGen.head (RaceStep.aggLoad _ rfl)
      (Relation.ReflTransGen.head (RaceStep.scanStore _ 0 rfl)
        (Relation.ReflTransGen.single (RaceStep.aggStore _ 0 rfl))))

/-- C3: in every execution, the number of `WriteTask`s in flight never
exceeds the admission-gate capacity — dispatching acquires a slot first
(`semaphore <- struct{}{}`, `main.go` line 199, blocking at capacity) and
every task exit path releases exactly one slot (the deferred `<-semaphore`,
line 202).  For every reachable state of the semaphore semantics,
`inFlight ≤ cap`, and the accounting identity
`pending + inFlight + finished = n` shows each acquired slot is released
exactly once when its task finishes, regardless of outcome. -/
theorem c3_semaphore_bound (cap n : Nat) (s : SemState) (h : SemReach cap n s) :
    s.inFlight ≤ cap ∧ s.pending + s.inFlight + s.finished = n := by
  induction h with
  | refl => simp [SemInit]
  | tail hr hstep ih => exact semStep_inv cap n _ _ hstep ih.1 ih.2

/-- C3 witness: the state after one dispatch from a five-line file is
reachable, and the bound and the accounting identity hold there. -/
theorem c3_semaphore_bound_witness :
    (⟨4, 1, 0⟩ : SemState).inFlight ≤ 100 ∧
      (⟨4, 1, 0⟩ : SemState).pending + (⟨4, 1, 0⟩ : SemState).inFlight +
        (⟨4, 1, 0⟩ : SemState).finished = 5 :=
  c3_semaphore_bound 100 5 ⟨4, 1, 0⟩
    (Relation.ReflTransGen.single (SemStep.dispatch (SemInit 5) (by decide) (by decide)))

/-- C4: with `processed > 0` the code computes `errRate = errors/processed`
and compares it strictly against `0.01` (`main.go` lines 228-233): the
successful-load log is emitted exactly when `100 * errors < processed`, the
failed-load log exactly when the rate is `≥ 0.01`; in particular
`processed = 100, errors = 1` gives rate `0.01` and is evaluated as a
failure, while `processed = 100, errors = 0` is evaluated as a success. -/
theorem c4_error_rate_threshold (p e : Nat) (r : Except Unit Unit) (hp : 0 < p) :
    ((finalizePhase p e r).evalLog = some (.successfulLoad ((e : ℚ) / p)) ↔ 100 * e < p) ∧
    ((finalizePhase p e r).evalLog = some (.failedLoad ((e : ℚ) / p)) ↔ p ≤ 100 * e) ∧
    (finalizePhase 100 1 r).evalLog = some (.failedLoad (1 / 100)) ∧
    (finalizePhase 100 0 r).evalLog = some (.successfulLoad 0) := by
  have hp0 : p ≠ 0 := Nat.pos_iff_ne_zero.mp hp
  have key := rate_lt_iff p e hp
  have hfin : finalizePhase p e r =
      if (e : ℚ) / (p : ℚ) < 1 / 100 then
        { evalLog := some (.successfulLoad ((e : ℚ) / (p : ℚ))), renameInvoked := true }
      else
        { evalLog := some (.failedLoad ((e : ℚ) / (p : ℚ))), renameInvoked := true } := by
    unfold finalizePhase
    rw [if_neg hp0]
  refine ⟨?_, ?_, ?_, ?_⟩
  · rw [hfin]
    by_cases hlt : (e : ℚ) / (p : ℚ) < 1 / 100
    · rw [if_pos hlt]
      simpa using key.mp hlt
    · rw [if_neg hlt]
      have h2 : ¬ 100 * e < p := fun hc => hlt (key.mpr hc)
      simp [h2]
  · rw [hfin]
    by_cases hlt : (e : ℚ) / (p : ℚ) < 1 / 100
    · rw [if_pos hlt]
      have h2 : 100 * e < p := key.mp hlt
      simp [show ¬ p ≤ 100 * e from by omega]
    · rw [if_neg hlt]
      have h2 : p ≤ 100 * e := by
        by_contra hc
        exact hlt (key.mpr (by omega))
      simpa using h2
  · norm_num [finalizePhase]
  · norm_num [finalizePhase]

/-- C4 witness: the boundary instance `processed = 100, errors = 1` is
evaluated as a failed load. -/
theorem c4_error_rate_threshold_witness :
    (finalizePhase 100 1 (Except.ok ())).evalLog = some (.failedLoad (1 / 100)) :=
  (c4_error_rate_threshold 100 1 (Except.ok ()) (by norm_num)).2.2.1

/-- C5: a file that finishes with `processed = 0` is treated as complete
regardless of `errors` (`main.go` lines 223-226): no rate is computed, no
success/failure evaluation log is emitted, and the file is still renamed. -/
theorem c5_zero_processed (e : Nat) (r : Except Unit Unit) :
    (finalizePhase 0 e r).evalLog = none ∧ (finalizePhase 0 e r).renameInvoked = true :=
  ⟨rfl, rfl⟩

/-- C6 counterexample: the claim says the line `\t\t55.55\t42.42\t1` fails
with `MissingIdentity`, but `parseAppsInstalled` first applies
`strings.TrimSpace` (`main.go` line 61), which strips the leading tabs,
leaving only three tab-separated fields — so the line fails with the
"not enough fields" error (`MalformedLine`), not `MissingIdentity`. -/
theorem c6_counterexample :
    parseAppsInstalled (gs "\t\t55.55\t42.42\t1") = .error .malformedLine ∧
      parseAppsInstalled (gs "\t\t55.55\t42.42\t1") ≠ .error .missingIdentity := by
  refine ⟨rfl, ?_⟩
  intro hc
  rw [show parseAppsInstalled (gs "\t\t55.55\t42.42\t1") = .error .malformedLine from rfl] at hc
  simp at hc

/-- C6 amended: whenever the trimmed, tab-split line still has at least five
fields and field 1 (deviceType) or field 2 (deviceId) is empty, the parser
fails with `MissingIdentity` (`main.go` lines 72-74); a line such as
`x\t\t55.55\t42.42\t1` fails with `MissingIdentity`, while the all-leading-tab
example of the original claim is trimmed below five fields and fails with
`MalformedLine` instead. -/
theorem c6_missing_identity (line : GoStr)
    (h5 : ¬ (splitChar '\t' (trimSpace line)).length < 5)
    (hid : ((splitChar '\t' (trimSpace line)).getD 0 []).isEmpty = true ∨
           ((splitChar '\t' (trimSpace line)).getD 1 []).isEmpty = true) :
    parseAppsInstalled line = .error .missingIdentity := by
  simp only [parseAppsInstalled]
  rw [if_neg h5, if_pos]
  exact hid

/-- C6 witness: a concrete line with five fields and an empty deviceId. -/
theorem c6_missing_identity_witness :
    parseAppsInstalled (gs "x\t\t55.55\t42.42\t1") = .error .missingIdentity :=
  c6_missing_identity (gs "x\t\t55.55\t42.42\t1") (by decide) (by decide)

/-- C7: the app-list loop (`main.go` lines 87-100) skips exactly the tokens
that fail to parse as 32-bit unsigned integers (and empty tokens) without
failing the record — it computes the `filterMap` of the token parse over the
comma-split field; the line `idfa\tID1\t55.55\t42.42\t1,x,3` parses
successfully with apps `[1, 3]`; a field whose tokens are all skipped yields
a valid record with an empty apps sequence, and an all-empty token list
yields the empty sequence. -/
theorem c7_apps_tokens_skipped :
    (∀ toks : List GoStr,
        parseAppsTokens toks = toks.filterMap (fun t => goParseUint32 (trimSpace t))) ∧
    Except.map (fun r => (r.devType, r.devID, r.apps))
        (parseAppsInstalled (gs "idfa\tID1\t55.55\t42.42\t1,x,3")) =
      .ok (gs "idfa", gs "ID1", [1, 3]) ∧
    Except.map (fun r => (r.devType, r.devID, r.apps))
        (parseAppsInstalled (gs "idfa\tID1\t55.55\t42.42\tx")) =
      .ok (gs "idfa", gs "ID1", []) ∧
    parseApps (gs ",") = [] := by
  refine ⟨?_, rfl, rfl, rfl⟩
  intro toks
  induction toks with
  | nil => rfl
  | cons t rest ih =>
    simp only [parseAppsTokens, List.filterMap_cons]
    by_cases he : (trimSpace t).isEmpty
    · have ht : trimSpace t = [] := by
        cases hv : trimSpace t with
        | nil => rfl
        | cons a as => rw [hv] at he; simp at he
      rw [if_pos he, ht]
      simpa [goParseUint32, takeDigits, digitsVal] using ih
    · rw [if_neg he]
      cases hu : goParseUint32 (trimSpace t) with
      | none => simpa [hu] using ih
      | some a => simp [hu, ih]

/-- C8 counterexample: the claim says ties in modification time are broken
stably, but the exchange sort of `main` (`main.go` lines 353-359) is an
unstable selection sort: on input `[a(t=2), b(t=2), c(t=1)]` the two
equal-time entries `a` and `b` come out in the order `b, a`, inverting
their discovery order. -/
theorem c8_counterexample :
    (⟨gs "a", 2⟩ : FileInfo).modTime = (⟨gs "b", 2⟩ : FileInfo).modTime ∧
    sortByModTime [⟨gs "a", 2⟩, ⟨gs "b", 2⟩, ⟨gs "c", 1⟩] =
      [⟨gs "c", 1⟩, ⟨gs "b", 2⟩, ⟨gs "a", 2⟩] :=
  ⟨rfl, rfl⟩

/-- C8 amended: the orchestrator processes the discovered files strictly one
at a time in ascending order of modification time, ties broken arbitrarily
(but not necessarily stably): the sort output is an ascending permutation of
the discovered files, and files with modification times T3 < T1 < T2
discovered in the order T1, T2, T3 are processed in the order T3, T1, T2. -/
theorem c8_sorted_perm (l : List FileInfo) :
    (sortByModTime l).Pairwise (fun u v => u.modTime ≤ v.modTime) ∧
    List.Perm (sortByModTime l) l ∧
    processOrder [⟨gs "f1", 5⟩, ⟨gs "f2", 9⟩, ⟨gs "f3", 1⟩] =
      [gs "f3", gs "f1", gs "f2"] :=
  ⟨sortByModTime_sorted l, sortByModTime_perm l, rfl⟩

/-- C9 counterexample: the claim says a failed completion rename is logged.
`processFile` calls `dotRename` discarding its result (`main.go` lines 224
and 235), so the observable outcome of finalizing a file — including every
log line it emits — is identical whether the rename fails or succeeds; in
particular no failure log is emitted for the concrete file summary
`processed = 10, errors = 0` whose rename fails. -/
theorem c9_counterexample :
    finalizePhase 10 0 (Except.error ()) = finalizePhase 10 0 (Except.ok ()) := rfl

/-- C9 amended: a failed completion rename is silently ignored (not logged)
and is non-fatal: the rename outcomes of the files never influence any
file's evaluation logs, and the sequential pipeline still processes every
file. -/
theorem c9_rename_ignored (fs1 fs2 : List (Nat × Nat × Except Unit Unit))
    (h : fs1.map (fun f => (f.1, f.2.1)) = fs2.map (fun f => (f.1, f.2.1))) :
    runPipeline fs1 = runPipeline fs2 ∧ (runPipeline fs1).length = fs1.length := by
  constructor
  · induction fs1 generalizing fs2 with
    | nil =>
      cases fs2 with
      | nil => rfl
      | cons g gl => simp at h
    | cons f fl ih =>
      cases fs2 with
      | nil => simp at h
      | cons g gl =>
        simp only [List.map_cons, List.cons.injEq] at h
        obtain ⟨h1, h2⟩ := h
        rw [Prod.mk.injEq] at h1
        obtain ⟨e1, e2⟩ := h1
        simp only [runPipeline, List.map_cons]
        have hf : finalizePhase f.1 f.2.1 f.2.2 = finalizePhase g.1 g.2.1 g.2.2 := by
          rw [e1, e2]
          rfl
        rw [hf]
        have := ih gl h2
        simpa [runPipeline] using this
  · simp [runPipeline]

/-- C9 witness: a one-file pipeline whose rename fails produces the same
output as the same pipeline with the rename succeeding, and the file is
still processed. -/
theorem c9_rename_ignored_witness :
    runPipeline [(5, 0, Except.error ())] = runPipeline [(5, 0, Except.ok ())] ∧
      (runPipeline [(5, 0, Except.error ())]).length = 1 :=
  c9_rename_ignored [(5, 0, Except.error ())] [(5, 0, Except.ok ())] rfl

/-- C10: a line that is empty after trimming is skipped entirely by the scan
loop (`main.go` lines 179-182): its action is `skip` — no parse is
attempted, no `WriteTask` is dispatched — and removing it from a file leaves
the scan result (direct error increments and dispatched tasks) unchanged. -/
theorem c10_empty_line_skip (raw : GoStr) (h : trimSpace raw = []) :
    lineStep raw = .skip ∧
      ∀ pre post : List GoStr, scanLines (pre ++ raw :: post) = scanLines (pre ++ post) := by
  have hs : lineStep raw = .skip := by
    simp [lineStep, h]
  exact ⟨hs, fun pre post => scanLines_skip_middle pre post raw hs⟩

/-- C10 witness: a concrete whitespace-only line is skipped. -/
theorem c10_empty_line_skip_witness : lineStep (gs " \t ") = .skip :=
  (c10_empty_line_skip (gs " \t ") (by decide)).1

end MemcLoad
